import Mathlib

/-!
Verification of the GalleryNet model-maintenance scripts.

The development embeds the three Python scripts of the repository
(`scripts/clean_models.py`, `scripts/inspect_model.py`,
`scripts/mobilenetv3_export.py`) as pure Lean functions over an explicit
model of the ONNX graph structure and of the filesystem, and proves the
spec's testable properties about them.
-/

/-- A declared graph input or output slot (`ValueInfoProto`): only its name
is inspected by the scripts. -/
structure ValueInfo where
  name : String
deriving Repr, DecidableEq

/-- A named constant tensor (`TensorProto`); `data` stands for the opaque
weight payload, which the scripts never inspect. -/
structure TensorProto where
  name : String
  data : List Nat
deriving Repr, DecidableEq

/-- A computation node (`NodeProto`): a name plus the tensor names it reads
and writes. -/
structure NodeProto where
  name : String
  input : List String
  output : List String
deriving Repr, DecidableEq

/-- The ONNX graph: ordered lists of nodes, declared inputs, declared
outputs and initializers, mirroring `model.graph` as used by
`clean_models.py`. -/
structure GraphProto where
  node : List NodeProto
  input : List ValueInfo
  output : List ValueInfo
  initializer : List TensorProto
deriving Repr, DecidableEq

/-- A model file is its graph (`model.graph` is the only field the scripts
touch). -/
structure ModelProto where
  graph : GraphProto
deriving Repr, DecidableEq

/-- `{i.name for i in model.graph.initializer}` in `clean_model`. -/
def initializerNames (g : GraphProto) : List String :=
  g.initializer.map TensorProto.name

/-- The `used_names` set of `clean_model`: every node's input names plus
every declared output's name. -/
def usedNames (g : GraphProto) : List String :=
  (g.node.map NodeProto.input).flatten ++ g.output.map ValueInfo.name

/-- The in-memory graph transformation performed by `clean_model`:
drop declared inputs whose name is an initializer name, then drop
initializers whose name is not used by any node input or declared
output. -/
def cleanGraph (g : GraphProto) : GraphProto :=
  let inits := initializerNames g
  let newInputs := g.input.filter fun i => decide (i.name ∉ inits)
  let used := usedNames g
  let newInits := g.initializer.filter fun i => decide (i.name ∈ used)
  { g with input := newInputs, initializer := newInits }

/-- `clean_model(path)`: load the file, transform the graph, save, printing
the removal count (when positive) and a success line; any load failure is
caught and reported as a failure line, and nothing is saved.  Returns the
printed lines and the model written back (if any). -/
def clean_model (load : String → Except String ModelProto) (path : String) :
    List String × Option ModelProto :=
  match load path with
  | .error e => (["Failed to clean " ++ path ++ ": " ++ e], none)
  | .ok m =>
    let g := cleanGraph m.graph
    let pre : List String :=
      if g.initializer.length < m.graph.initializer.length then
        ["Removing " ++ toString (m.graph.initializer.length - g.initializer.length) ++
          " unused initializers from " ++ path]
      else []
    (pre ++ ["Successfully cleaned: " ++ path], some { graph := g })

/-- The `for path in sys.argv[1:]` loop: process each path independently,
accumulating printed lines and the (path, model) pairs written back. -/
def cleanModels (load : String → Except String ModelProto) :
    List String → List String × List (String × ModelProto)
  | [] => ([], [])
  | p :: rest =>
    let r := clean_model load p
    let rs := cleanModels load rest
    (r.1 ++ rs.1,
      (match r.2 with
       | some m => [(p, m)]
       | none => []) ++ rs.2)

/-- The `__main__` block of `clean_models.py`: with no path arguments print
the usage line, otherwise run the per-path loop.  `argv` is `sys.argv[1:]`. -/
def cleanerMain (load : String → Except String ModelProto) (argv : List String) :
    List String × List (String × ModelProto) :=
  if argv.length < 1 then
    (["Usage: python clean_models.py <model1.onnx> <model2.onnx> ..."], [])
  else
    cleanModels load argv

lemma mem_initializerNames_cleanGraph (g : GraphProto) (n : String) :
    n ∈ initializerNames (cleanGraph g) ↔
      n ∈ initializerNames g ∧ n ∈ usedNames g := by
  simp only [initializerNames, cleanGraph, List.mem_map, List.mem_filter,
    decide_eq_true_eq]
  constructor
  · rintro ⟨i, ⟨hi, hu⟩, hn⟩
    exact ⟨⟨i, hi, hn⟩, hn ▸ hu⟩
  · rintro ⟨⟨i, hi, hn⟩, hu⟩
    exact ⟨i, ⟨hi, hn ▸ hu⟩, hn⟩

lemma mem_input_cleanGraph (g : GraphProto) (v : ValueInfo) :
    v ∈ (cleanGraph g).input ↔ v ∈ g.input ∧ v.name ∉ initializerNames g := by
  simp only [cleanGraph, List.mem_filter, decide_eq_true_eq]

lemma usedNames_cleanGraph (g : GraphProto) :
    usedNames (cleanGraph g) = usedNames g := rfl

/-- C1: the initializer names surviving `cleanGraph` are exactly the
original initializer names that are also used names (used = referenced by
some node input or by some declared output). -/
theorem cleanGraph_initializer_names (g : GraphProto) (n : String) :
    n ∈ initializerNames (cleanGraph g) ↔
      n ∈ initializerNames g ∧ n ∈ usedNames g :=
  mem_initializerNames_cleanGraph g n

/-- C2: after `cleanGraph`, no surviving initializer name is also a
declared-input name; every surviving initializer name is used by a node
input or a declared output; and a name that was both an initializer and a
declared input no longer names any declared input. -/
theorem cleanGraph_invariants (g : GraphProto) (n : String) :
    (n ∈ initializerNames (cleanGraph g) →
      n ∉ (cleanGraph g).input.map ValueInfo.name) ∧
    (n ∈ initializerNames (cleanGraph g) → n ∈ usedNames g) ∧
    (n ∈ initializerNames g → n ∈ g.input.map ValueInfo.name →
      n ∉ (cleanGraph g).input.map ValueInfo.name) := by
  have hdrop : n ∈ initializerNames g → n ∉ (cleanGraph g).input.map ValueInfo.name := by
    intro hn hmem
    rcases List.mem_map.mp hmem with ⟨v, hv, hvn⟩
    exact ((mem_input_cleanGraph g v).mp hv).2 (hvn ▸ hn)
  refine ⟨?_, ?_, fun hn _ => hdrop hn⟩
  · intro hn
    exact hdrop ((mem_initializerNames_cleanGraph g n).mp hn).1
  · intro hn
    exact ((mem_initializerNames_cleanGraph g n).mp hn).2

/-- C3: the Cleaner's graph transformation is idempotent, and re-running
`clean_model` on a file that already holds the cleaned model writes back
that same model. -/
theorem cleanGraph_idempotent (g : GraphProto) (path : String) :
    cleanGraph (cleanGraph g) = cleanGraph g ∧
    (clean_model (fun _ => .ok { graph := cleanGraph g }) path).2 =
      some { graph := cleanGraph (cleanGraph g) } := by
  have hidem : cleanGraph (cleanGraph g) = cleanGraph g := by
    have hstep : cleanGraph (cleanGraph g) =
        { cleanGraph g with
          input := (cleanGraph g).input.filter
            fun i => decide (i.name ∉ initializerNames (cleanGraph g)),
          initializer := (cleanGraph g).initializer.filter
            fun i => decide (i.name ∈ usedNames (cleanGraph g)) } := rfl
    have hin : (cleanGraph g).input.filter
        (fun i => decide (i.name ∉ initializerNames (cleanGraph g))) =
        (cleanGraph g).input := by
      apply List.filter_eq_self.mpr
      intro v hv
      have hvn : v.name ∉ initializerNames g := ((mem_input_cleanGraph g v).mp hv).2
      simp only [decide_eq_true_eq]
      intro hmem
      exact hvn ((mem_initializerNames_cleanGraph g v.name).mp hmem).1
    have hinit : (cleanGraph g).initializer.filter
        (fun i => decide (i.name ∈ usedNames (cleanGraph g))) =
        (cleanGraph g).initializer := by
      apply List.filter_eq_self.mpr
      intro i hi
      simp only [usedNames_cleanGraph, decide_eq_true_eq]
      have hmem : i ∈ g.initializer.filter
          (fun j => decide (j.name ∈ usedNames g)) := hi
      have := (List.mem_filter.mp hmem).2
      exact of_decide_eq_true this
    rw [hstep, hin, hinit]
  refine ⟨hidem, ?_⟩
  simp [clean_model]

/-- An example graph: `w` is both an initializer and a declared input and
is read by the node; `u` is an unused initializer. -/
def gEx : GraphProto :=
  { node := [{ name := "n0", input := ["w", "x"], output := ["y"] }],
    input := [{ name := "x" }, { name := "w" }],
    output := [{ name := "y" }],
    initializer := [{ name := "w", data := [1] }, { name := "u", data := [2] }] }

/-- C1 witness at `gEx` and the unused name `u`. -/
theorem cleanGraph_initializer_names_witness :
    "u" ∈ initializerNames (cleanGraph gEx) ↔
      "u" ∈ initializerNames gEx ∧ "u" ∈ usedNames gEx :=
  cleanGraph_initializer_names gEx "u"

/-- C2 witness: in `gEx`, the name `w` (initializer and declared input) is
gone from the cleaned declared inputs. -/
theorem cleanGraph_invariants_witness :
    "w" ∉ (cleanGraph gEx).input.map ValueInfo.name :=
  (cleanGraph_invariants gEx "w").2.2 (by decide) (by decide)

/-- C10: `cleanGraph` leaves the node and declared-output lists unchanged,
and the surviving declared inputs and initializers are sublists of the
originals (entries are removed, never reordered). -/
theorem cleanGraph_frame (g : GraphProto) :
    (cleanGraph g).node = g.node ∧ (cleanGraph g).output = g.output ∧
    (cleanGraph g).input.Sublist g.input ∧
    (cleanGraph g).initializer.Sublist g.initializer :=
  ⟨rfl, rfl, List.filter_sublist g.input, List.filter_sublist g.initializer⟩

lemma clean_model_error (load : String → Except String ModelProto)
    (p e : String) (he : load p = .error e) :
    clean_model load p = (["Failed to clean " ++ p ++ ": " ++ e], none) := by
  simp [clean_model, he]

lemma clean_model_ok (load : String → Except String ModelProto)
    (p : String) (m : ModelProto) (hm : load p = .ok m) :
    (clean_model load p).2 = some { graph := cleanGraph m.graph } := by
  simp [clean_model, hm]

lemma mem_cleanModels_writes (load : String → Except String ModelProto)
    (paths : List String) (q : String) (m : ModelProto)
    (h : (q, m) ∈ (cleanModels load paths).2) :
    q ∈ paths ∧ ∃ g, load q = .ok g ∧ m = { graph := cleanGraph g.graph } := by
  induction paths with
  | nil => cases h
  | cons r rest ih =>
    simp only [cleanModels, List.mem_append] at h
    rcases h with h | h
    · match hr : load r with
      | .error e =>
        rw [show clean_model load r = (_, none) from clean_model_error load r e hr] at h
        cases h
      | .ok g =>
        have h2 : (clean_model load r).2 = some { graph := cleanGraph g.graph } :=
          clean_model_ok load r g hr
        rw [h2] at h
        rcases List.mem_singleton.mp h with hqm
        rcases Prod.mk.injEq .. ▸ hqm with ⟨hq, hm⟩
        subst hq
        exact ⟨List.mem_cons_self .., ⟨g, hr, hm⟩⟩
    · rcases ih h with ⟨hq, hg⟩
      exact ⟨List.mem_cons_of_mem _ hq, hg⟩

lemma cleanModels_writes_of_ok (load : String → Except String ModelProto)
    (paths : List String) (q : String) (m : ModelProto)
    (hq : q ∈ paths) (hm : load q = .ok m) :
    (q, { graph := cleanGraph m.graph }) ∈ (cleanModels load paths).2 := by
  induction paths with
  | nil => cases hq
  | cons r rest ih =>
    simp only [cleanModels, List.mem_append]
    rcases List.mem_cons.mp hq with hq | hq
    · subst hq
      left
      rw [clean_model_ok load q m hm]
      exact List.mem_singleton.mpr rfl
    · exact Or.inr (ih hq)

lemma cleanModels_fail_line (load : String → Except String ModelProto)
    (paths : List String) (p e : String)
    (hp : p ∈ paths) (he : load p = .error e) :
    ("Failed to clean " ++ p ++ ": " ++ e) ∈ (cleanModels load paths).1 := by
  induction paths with
  | nil => cases hp
  | cons r rest ih =>
    simp only [cleanModels, List.mem_append]
    rcases List.mem_cons.mp hp with hp | hp
    · subst hp
      left
      rw [show clean_model load p = (_, none) from clean_model_error load p e he]
      exact List.mem_singleton.mpr rfl
    · exact Or.inr (ih hp)

/-- C4: each path is handled in an isolated attempt.  A failing path
contributes a diagnostic line naming the path and the error, nothing is
written back for it, and every other path that loads successfully is still
cleaned and written back. -/
theorem cleanModels_isolated (load : String → Except String ModelProto)
    (paths : List String) (p e : String)
    (hp : p ∈ paths) (he : load p = .error e) :
    ("Failed to clean " ++ p ++ ": " ++ e) ∈ (cleanModels load paths).1 ∧
    (∀ m : ModelProto, (p, m) ∉ (cleanModels load paths).2) ∧
    (∀ q m, q ∈ paths → load q = .ok m →
      (q, { graph := cleanGraph m.graph }) ∈ (cleanModels load paths).2) := by
  refine ⟨cleanModels_fail_line load paths p e hp he, ?_, ?_⟩
  · intro m hmem
    rcases mem_cleanModels_writes load paths p m hmem with ⟨_, g, hg, _⟩
    rw [he] at hg
    cases hg
  · intro q m hq hm
    exact cleanModels_writes_of_ok load paths q m hq hm

/-- A load function for the C4 witness scenario: `bad.onnx` fails to load,
everything else loads as a model holding `gEx`. -/
def loadEx : String → Except String ModelProto := fun s =>
  if s = "bad.onnx" then .error "boom" else .ok { graph := gEx }

/-- C4 witness: in a batch of a bad and a good path, the bad path yields
the diagnostic line and no write, while the good path is still written. -/
theorem cleanModels_isolated_witness :
    ("Failed to clean bad.onnx: boom") ∈
      (cleanModels loadEx ["bad.onnx", "good.onnx"]).1 ∧
    (("bad.onnx", ModelProto.mk gEx) ∉
      (cleanModels loadEx ["bad.onnx", "good.onnx"]).2) ∧
    ("good.onnx", ModelProto.mk (cleanGraph gEx)) ∈
      (cleanModels loadEx ["bad.onnx", "good.onnx"]).2 := by
  have h := cleanModels_isolated loadEx ["bad.onnx", "good.onnx"] "bad.onnx" "boom"
    (by decide) (by rfl)
  exact ⟨h.1, h.2.1 (ModelProto.mk gEx),
    h.2.2 "good.onnx" (ModelProto.mk gEx) (by decide) (by rfl)⟩

/-- C8: with zero path arguments the Cleaner prints the usage line, writes
nothing and processes no file. -/
theorem cleanerMain_no_args (load : String → Except String ModelProto) :
    cleanerMain load [] =
      (["Usage: python clean_models.py <model1.onnx> <model2.onnx> ..."], []) :=
  rfl

/-- A graph whose sole initializer is used, so cleaning removes nothing. -/
def gKeep : GraphProto :=
  { node := [{ name := "n0", input := ["w"], output := ["y"] }],
    input := [],
    output := [{ name := "y" }],
    initializer := [{ name := "w", data := [1] }] }

/-- C9 counterexample: a successful path from which no initializer is
removed prints only the success line — there is no additional status
line, so the output has one line, not two. -/
theorem clean_model_no_status_line :
    (clean_model (fun _ => .ok { graph := gKeep }) "model.onnx").1 =
      ["Successfully cleaned: model.onnx"] ∧
    (clean_model (fun _ => .ok { graph := gKeep }) "model.onnx").1.length = 1 := by
  constructor <;> rfl

/-- C9 (amended): a failing path prints exactly the failure line; a
successful path prints the success line, preceded by a removal-count
status line exactly when at least one initializer was removed. -/
theorem clean_model_output_lines (load : String → Except String ModelProto)
    (path : String) :
    (∀ e, load path = .error e →
      (clean_model load path).1 = ["Failed to clean " ++ path ++ ": " ++ e]) ∧
    (∀ m, load path = .ok m →
      ("Successfully cleaned: " ++ path) ∈ (clean_model load path).1 ∧
      (clean_model load path).1.length =
        (if (cleanGraph m.graph).initializer.length < m.graph.initializer.length
         then 2 else 1)) := by
  constructor
  · intro e he
    rw [clean_model_error load path e he]
  · intro m hm
    simp only [clean_model, hm]
    by_cases hlt :
        (cleanGraph m.graph).initializer.length < m.graph.initializer.length
    · simp [hlt]
    · simp [hlt]

/-- C9 (amended) witness: cleaning `gEx` removes the unused initializer
`u`, so the output has the status line and the success line; cleaning
`gKeep` removes nothing, so the output is the success line alone. -/
theorem clean_model_output_lines_witness :
    ("Successfully cleaned: model.onnx") ∈
      (clean_model (fun _ => .ok { graph := gEx }) "model.onnx").1 ∧
    (clean_model (fun _ => .ok { graph := gEx }) "model.onnx").1.length = 2 := by
  have h := (clean_model_output_lines (fun _ => .ok { graph := gEx })
    "model.onnx").2 { graph := gEx } rfl
  refine ⟨h.1, ?_⟩
  rw [h.2]
  rfl

/-- A tensor dimension as reported by an inference session: a concrete
size or a symbolic dimension name. -/
inductive Dim where
  | fixed : Nat → Dim
  | sym : String → Dim
deriving Repr, DecidableEq

/-- Printed form of one dimension. -/
def Dim.render : Dim → String
  | .fixed n => toString n
  | .sym s => s

/-- Printed form of a shape, matching the list layout used by the script's
print of `input.shape`. -/
def renderShape (s : List Dim) : String :=
  "[" ++ String.intercalate ", " (s.map Dim.render) ++ "]"

/-- One declared input or output slot of an inference session: name,
shape and element type, as `inspect_model.py` reads them. -/
structure NodeArg where
  name : String
  shape : List Dim
  type : String
deriving Repr, DecidableEq

/-- An inference session exposes its declared inputs and outputs in
declaration order. -/
structure InferenceSession where
  inputs : List NodeArg
  outputs : List NodeArg
deriving Repr, DecidableEq

/-- The line printed for input `i` by `check_model`. -/
def inputLine (i : Nat) (a : NodeArg) : String :=
  "  Input " ++ toString i ++ ": " ++ a.name ++ ", " ++ renderShape a.shape ++
    ", " ++ a.type

/-- The line printed for output `i` by `check_model`. -/
def outputLine (i : Nat) (a : NodeArg) : String :=
  "  Output " ++ toString i ++ ": " ++ a.name ++ ", " ++ renderShape a.shape ++
    ", " ++ a.type

/-- `check_model(path)` from `inspect_model.py`: construct the session;
on success print a header followed by one line per declared input and then
one per declared output, each with its zero-based index; on failure catch
the error and print a single diagnostic line. -/
def check_model (mk : String → Except String InferenceSession) (path : String) :
    List String :=
  match mk path with
  | .error e => ["Error loading " ++ path ++ ": " ++ e]
  | .ok sess =>
    ("Model: " ++ path) ::
      (sess.inputs.enum.map (fun p => inputLine p.1 p.2) ++
       sess.outputs.enum.map (fun p => outputLine p.1 p.2))

/-- The `__main__` block of `inspect_model.py` inspects a hard-coded path. -/
def inspectorMain (mk : String → Except String InferenceSession) : List String :=
  check_model mk "assets/models/version-slim-320.onnx"

lemma getElem?_enum_map {α β : Type} (l : List α) (f : Nat → α → β) (i : Nat) :
    (l.enum.map fun p => f p.1 p.2)[i]? = l[i]?.map (f i) := by
  rw [List.getElem?_map, List.getElem?_enum]
  cases l[i]? <;> rfl

/-- C5: on session-construction success `check_model` prints a header and
then, in declaration order, one line per declared input and one per
declared output, each carrying its zero-based index, name, shape and
element type; on failure it prints a single diagnostic line naming the
path and the error, and never raises. -/
theorem check_model_spec (mk : String → Except String InferenceSession)
    (path : String) :
    (∀ e, mk path = .error e →
      check_model mk path = ["Error loading " ++ path ++ ": " ++ e]) ∧
    (∀ s, mk path = .ok s →
      (check_model mk path).length = 1 + s.inputs.length + s.outputs.length ∧
      (check_model mk path)[0]? = some ("Model: " ++ path) ∧
      (∀ i, i < s.inputs.length →
        (check_model mk path)[1 + i]? = s.inputs[i]?.map (inputLine i)) ∧
      (∀ i, i < s.outputs.length →
        (check_model mk path)[1 + s.inputs.length + i]? =
          s.outputs[i]?.map (outputLine i))) := by
  constructor
  · intro e he
    simp [check_model, he]
  · intro s hs
    have hck : check_model mk path =
        ("Model: " ++ path) ::
          (s.inputs.enum.map (fun p => inputLine p.1 p.2) ++
           s.outputs.enum.map (fun p => outputLine p.1 p.2)) := by
      simp [check_model, hs]
    have hlenA : (s.inputs.enum.map (fun p => inputLine p.1 p.2)).length =
        s.inputs.length := by
      simp
    refine ⟨?_, ?_, ?_, ?_⟩
    · simp [hck]
      omega
    · simp [hck]
    · intro i hi
      rw [hck]
      have h1 : 1 + i = i + 1 := Nat.add_comm 1 i
      rw [h1, List.getElem?_cons_succ,
        List.getElem?_append_left (hlenA ▸ hi), getElem?_enum_map]
    · intro i hi
      rw [hck]
      have h1 : 1 + s.inputs.length + i = (s.inputs.length + i) + 1 := by omega
      rw [h1, List.getElem?_cons_succ,
        List.getElem?_append_right (by omega : 
          (s.inputs.enum.map (fun p => inputLine p.1 p.2)).length ≤
            s.inputs.length + i)]
      rw [hlenA]
      have h2 : s.inputs.length + i - s.inputs.length = i := by omega
      rw [h2, getElem?_enum_map]

/-- The inference session of the spec's Inspector example. -/
def sessionEx : InferenceSession :=
  { inputs := [{ name := "x",
                 shape := [.fixed 1, .fixed 3, .fixed 224, .fixed 224],
                 type := "float32" }],
    outputs := [{ name := "y", shape := [.fixed 1, .fixed 1000],
                  type := "float32" }] }

/-- A session constructor that always yields `sessionEx`. -/
def mkSessionEx : String → Except String InferenceSession :=
  fun _ => .ok sessionEx

/-- C5 witness on the spec's example: exactly one input line and one
output line, with the declared names, shapes and types. -/
theorem check_model_spec_witness :
    (check_model mkSessionEx "model.onnx").length = 3 ∧
    (check_model mkSessionEx "model.onnx")[1]? =
      some "  Input 0: x, [1, 3, 224, 224], float32" ∧
    (check_model mkSessionEx "model.onnx")[2]? =
      some "  Output 0: y, [1, 1000], float32" := by
  have h := (check_model_spec mkSessionEx "model.onnx").2 sessionEx rfl
  refine ⟨h.1, ?_, ?_⟩
  · have h1 := h.2.2.1 0 (by decide)
    simpa using h1
  · have h2 := h.2.2.2 0 (by decide)
    simpa [sessionEx] using h2

/-- The keyword arguments `mobilenetv3_export.py` passes to
`torch.onnx.export`. -/
structure OnnxExportArgs where
  exportParams : Bool
  opsetVersion : Nat
  doConstantFolding : Bool
  inputNames : List String
  outputNames : List String
  dynamicAxes : List (String × List (Nat × String))
deriving Repr, DecidableEq

/-- The shape of the synthetic tracing tensor `torch.randn(1, 3, 224, 224)`. -/
def dummyInputShape : List Nat := [1, 3, 224, 224]

/-- The export call made by `export_model`. -/
def exportArgs : OnnxExportArgs :=
  { exportParams := true,
    opsetVersion := 17,
    doConstantFolding := true,
    inputNames := ["input"],
    outputNames := ["output"],
    dynamicAxes := [("input", [(0, "batch_size")]),
                    ("output", [(0, "batch_size")])] }

/-- The fixed output path of the Exporter. -/
def outputOnnxFile : String := "assets/models/mobilenetv3.onnx"

/-- The separate weight-data file the export step may leave behind. -/
def weightDataFile : String := outputOnnxFile ++ ".data"

/-- C6: the export is invoked with a (1, 3, 224, 224) synthetic input,
opset 17, constant folding on, the sole input named `input` and sole
output named `output`, and exactly the batch (first) axis of each declared
dynamic. -/
theorem export_call_spec :
    dummyInputShape = [1, 3, 224, 224] ∧
    exportArgs.opsetVersion = 17 ∧
    exportArgs.doConstantFolding = true ∧
    exportArgs.exportParams = true ∧
    exportArgs.inputNames = ["input"] ∧
    exportArgs.outputNames = ["output"] ∧
    exportArgs.dynamicAxes = [("input", [(0, "batch_size")]),
                              ("output", [(0, "batch_size")])] := by
  decide

/-- Mark a path as existing (a file write). -/
def writeFile (fs : String → Bool) (p : String) : String → Bool :=
  fun q => if q = p then true else fs q

/-- Mark a path as absent (`os.remove`). -/
def removeFile (fs : String → Bool) (p : String) : String → Bool :=
  fun q => if q = p then false else fs q

/-- The tail of `export_model` after `torch.onnx.export`, over a
filesystem modelled as the set of existing paths: reload/re-save the model
at the fixed path (inlining weights), then delete the separate weight-data
file if it exists, logging the deletion. -/
def finalizeExport (fs : String → Bool) : (String → Bool) × List String :=
  let fs1 := writeFile fs outputOnnxFile
  if fs1 weightDataFile then
    (removeFile fs1 weightDataFile,
      ["Removing external data file: " ++ weightDataFile])
  else (fs1, [])

lemma outputOnnxFile_ne_weightDataFile : outputOnnxFile ≠ weightDataFile := by
  decide

lemma writeFile_data (fs : String → Bool) :
    writeFile fs outputOnnxFile weightDataFile = fs weightDataFile := by
  simp only [writeFile]
  rw [if_neg fun h => outputOnnxFile_ne_weightDataFile h.symm]

lemma finalizeExport_pos (fs : String → Bool) (hd : fs weightDataFile = true) :
    finalizeExport fs =
      (removeFile (writeFile fs outputOnnxFile) weightDataFile,
        ["Removing external data file: " ++ weightDataFile]) := by
  simp only [finalizeExport, writeFile_data fs, hd, if_true]

lemma finalizeExport_neg (fs : String → Bool) (hd : fs weightDataFile = false) :
    finalizeExport fs = (writeFile fs outputOnnxFile, []) := by
  simp only [finalizeExport, writeFile_data fs, hd, Bool.false_eq_true, if_false]

/-- C7: after the Exporter's final steps the fixed output path exists, the
separate weight-data file does not, any pre-existing weight-data file's
deletion is logged, and no other path is touched. -/
theorem finalizeExport_single_file (fs : String → Bool) :
    (finalizeExport fs).1 outputOnnxFile = true ∧
    (finalizeExport fs).1 weightDataFile = false ∧
    (fs weightDataFile = true →
      (finalizeExport fs).2 =
        ["Removing external data file: " ++ weightDataFile]) ∧
    (∀ q, q ≠ outputOnnxFile → q ≠ weightDataFile →
      (finalizeExport fs).1 q = fs q) := by
  have hne : outputOnnxFile ≠ weightDataFile := outputOnnxFile_ne_weightDataFile
  rcases Bool.dichotomy (fs weightDataFile) with hd | hd
  · rw [finalizeExport_neg fs hd]
    refine ⟨by simp [writeFile], ?_, ?_, ?_⟩
    · show writeFile fs outputOnnxFile weightDataFile = false
      rw [writeFile_data fs, hd]
    · intro hdata
      rw [hd] at hdata
      cases hdata
    · intro q hq1 _
      simp [writeFile, hq1]
  · rw [finalizeExport_pos fs hd]
    refine ⟨?_, ?_, fun _ => rfl, ?_⟩
    · simp [removeFile, writeFile, hne]
    · simp [removeFile]
    · intro q hq1 hq2
      simp [removeFile, writeFile, hq1, hq2]

/-- A pre-finalize filesystem on which the export step left a weight-data
file behind. -/
def fsWithData : String → Bool := fun q => q == weightDataFile

/-- C7 witness: starting from a filesystem holding a stray weight-data
file, finalization leaves the output file present, the data file gone, and
logs the deletion. -/
theorem finalizeExport_single_file_witness :
    (finalizeExport fsWithData).1 outputOnnxFile = true ∧
    (finalizeExport fsWithData).1 weightDataFile = false ∧
    (finalizeExport fsWithData).2 =
      ["Removing external data file: " ++ weightDataFile] := by
  have h := finalizeExport_single_file fsWithData
  exact ⟨h.1, h.2.1, h.2.2.1 (by decide)⟩
